import Mathlib

/-!
# Verification of the zaudiobrowser metadata cache and archive accessor

Shallow embedding of `src/audio_browser/cache/cache_manager.py` and
`src/audio_browser/zip/zip_manager.py`.  Python strings are modelled as Lean
`String`s (the archives at issue use ASCII entry names, on which Python's
`str.lower` and code-point ordering coincide with the ASCII versions defined
here).  The filesystem, the cache directory and the per-archive cache files
are modelled as association lists keyed by path strings; disk writes are
modelled as succeeding.  Machine I/O (opening a `zipfile.ZipFile`) is counted
by an explicit counter so that "no archive I/O happened" is a provable state
equality.
-/

namespace AudioBrowser

/-! ## String and path helpers (`os.path`, `pathlib`, `str.lower`) -/

/-- ASCII lower-casing of one character, as Python's `str.lower` acts on the
ASCII range. -/
def lowerChar (c : Char) : Char :=
  if 'A' ≤ c ∧ c ≤ 'Z' then Char.ofNat (c.toNat + 32) else c

/-- ASCII lower-casing of a string (`str.lower` restricted to ASCII). -/
def lowerStr (s : String) : String := ⟨s.data.map lowerChar⟩

/-- Lexicographic code-point comparison on character lists, as Python compares
strings with `<`. -/
def charListLt : List Char → List Char → Bool
  | [], [] => false
  | [], _ :: _ => true
  | _ :: _, [] => false
  | a :: as, b :: bs =>
    if a.toNat < b.toNat then true
    else if b.toNat < a.toNat then false
    else charListLt as bs

/-- Python string `<`. -/
def strLt (s t : String) : Bool := charListLt s.data t.data

/-- `s.startswith(pre)`. -/
def strStartsWith (s pre : String) : Bool := pre.data.isPrefixOf s.data

/-- Characters of `cs` strictly after the last `'/'` (all of `cs` when there
is no slash): the `tail` of Python's `os.path.split`. -/
def afterLastSlash (cs : List Char) : List Char :=
  (cs.reverse.takeWhile (fun c => !(c == '/'))).reverse

/-- Characters of `cs` up to and including the last `'/'` (empty when there is
no slash): the raw `head` of Python's `os.path.split` before stripping. -/
def headRaw (cs : List Char) : List Char :=
  (cs.reverse.dropWhile (fun c => !(c == '/'))).reverse

/-- Drop trailing `'/'` characters, as `str.rstrip('/')`. -/
def rstripSlash (cs : List Char) : List Char :=
  (cs.reverse.dropWhile (fun c => c == '/')).reverse

/-- `os.path.basename` (POSIX): everything after the last `'/'`. -/
def basename (s : String) : String := ⟨afterLastSlash s.data⟩

/-- `os.path.dirname` (POSIX): the head of `os.path.split`, with trailing
slashes stripped unless the head consists solely of slashes. -/
def dirname (s : String) : String :=
  let head := headRaw s.data
  if head.isEmpty || head.all (fun c => c == '/') then ⟨head⟩
  else ⟨rstripSlash head⟩

/-- `os.path.join(a, b)` (POSIX, two arguments). -/
def joinPath (a b : String) : String :=
  if strStartsWith b "/" then b
  else if a == "" || (a.data.getLast? == some '/') then a ++ b
  else a ++ "/" ++ b

/-- Split on `'/'` into components (keeping empty components), as the first
step of `pathlib`'s parsing. -/
def splitSlash : List Char → List (List Char)
  | [] => [[]]
  | c :: cs =>
    let r := splitSlash cs
    if c == '/' then [] :: r
    else (c :: r.headD []) :: r.tail

/-- `pathlib.PurePath(s).name`: the last path component after dropping empty
and `"."` components. -/
def pathlibName (s : String) : String :=
  let comps := (splitSlash s.data).filter (fun c => !c.isEmpty && !(c == ['.']))
  match comps.getLast? with
  | some l => ⟨l⟩
  | none => ""

/-- `pathlib.PurePath(s).suffix`: the extension (from the last dot) of the
final component, empty when the last dot is the first or last character of
that component. -/
def suffix (s : String) : String :=
  let n := (pathlibName s).data
  if n.contains '.' then
    let after := n.reverse.takeWhile (fun c => !(c == '.'))
    let i := n.length - 1 - after.length
    if 0 < i && !after.isEmpty then ⟨'.' :: after.reverse⟩ else ""
  else ""

/-! ## A stable sort

Python's `sorted`/`list.sort` are stable; a stable sort's output is determined
by the comparison and the input order alone, so the stable insertion sort
below produces exactly the lists the Python code produces. -/

/-- Insert `a` before the first element not strictly below it (stable
insertion). -/
def insertSorted (lt : α → α → Bool) (a : α) : List α → List α
  | [] => [a]
  | b :: bs => if lt b a then b :: insertSorted lt a bs else a :: b :: bs

/-- Stable insertion sort: models Python's stable `sorted`. -/
def insertionSort (lt : α → α → Bool) : List α → List α
  | [] => []
  | a :: as => insertSorted lt a (insertionSort lt as)

/-- First occurrences of each element, in order of first appearance: the key
order of a Python `dict` populated by repeated insertion. -/
def dedupFirst (l : List String) : List String :=
  l.foldl (fun acc x => if acc.contains x then acc else acc ++ [x]) []

/-! ## Audio-entry recognition and the scan (`ZipManager.list_audio_files`) -/

/-- `ZipManager.AUDIO_EXTENSIONS`. -/
def AUDIO_EXTENSIONS : List String := [".wav", ".mp3", ".ogg"]

/-- `Path(name).suffix.lower() in AUDIO_EXTENSIONS`. -/
def isAudioName (name : String) : Bool :=
  AUDIO_EXTENSIONS.contains (lowerStr (suffix name))

/-- The filter applied to each archive entry by the scan loop of
`ZipManager.list_audio_files`: skip names starting with `__MACOSX` or `._`,
keep names with a recognized audio extension. -/
def keptEntry (name : String) : Bool :=
  !(strStartsWith name "__MACOSX" || strStartsWith name "._") && isAudioName name

/-- The scan path of `ZipManager.list_audio_files`: group kept entries by
`os.path.dirname` (a `dict` in first-insertion order), sort the folders
case-insensitively, and inside each folder sort the entries
case-insensitively by `os.path.basename`. -/
def scanAudioFiles (names : List String) : List String :=
  let kept := names.filter keptEntry
  let folders := dedupFirst (kept.map dirname)
  let sortedFolders := insertionSort (fun f g => strLt (lowerStr f) (lowerStr g)) folders
  (sortedFolders.map (fun folder =>
    insertionSort (fun a b => strLt (lowerStr (basename a)) (lowerStr (basename b)))
      (kept.filter (fun n => dirname n == folder)))).flatten

example : scanAudioFiles ["drums/kick.wav", "drums/Snare.wav", "amb/room.ogg"] =
    ["amb/room.ogg", "drums/kick.wav", "drums/Snare.wav"] := by decide

example : scanAudioFiles ["__MACOSX/._audio1.wav", "audio1.wav"] = ["audio1.wav"] := by decide

example : suffix "__MACOSX/._audio1.wav" = ".wav" := by decide

example : dirname "/a" = "/" ∧ dirname "b.wav" = "" ∧ basename "a/b.wav" = "b.wav" := by decide

/-! ## Data model

Archives on disk, their entries, and the cached metadata documents. -/

/-- `os.stat` data used for cache validation
(`CacheManager._calculate_file_stats`): `st_size` and `int(st_mtime)`. -/
structure FileStats where
  size : Nat
  mtime : Int
deriving DecidableEq, Repr

/-- One entry of a ZIP archive's central directory, together with the result
the duration probe (`ZipManager.get_audio_duration`'s mutagen call) would
return for it and its stored bytes. -/
structure ZEntry where
  name : String
  file_size : Nat
  date_time : List Nat
  duration : Option Nat
  contents : List Nat
deriving DecidableEq, Repr

/-- An archive file on disk: its stat data, its central directory, and
whether `zipfile.ZipFile` accepts it. -/
structure Archive where
  stats : FileStats
  entries : List ZEntry
  isValidZip : Bool
deriving DecidableEq, Repr

/-- `ZipFile.namelist()` / the names of `ZipFile.filelist`. -/
def Archive.names (a : Archive) : List String := a.entries.map ZEntry.name

/-- The filesystem: a map from path to archive file.  `os.path.exists` is
key membership. -/
abbrev FS := List (String × Archive)

/-- The per-file metadata record built by `ZipManager.load_zip` (`size`,
`timestamp`, optional `duration_ms`). -/
structure FileMeta where
  size : Nat
  timestamp : List Nat
  duration_ms : Option Nat
deriving DecidableEq, Repr

/-- The cached metadata document (the `metadata` value passed to
`CacheManager.cache_metadata`): audio file list, total entry count, and the
per-file metadata mapping. -/
structure Payload where
  audio_files : List String
  total_files : Nat
  file_metadata : List (String × FileMeta)
deriving DecidableEq, Repr

/-- The parsed content of one `.cache` file: optional `file_stats`
(fingerprint format), optional legacy `checksum` and top-level `size`, the
`metadata` document and the write `timestamp`. -/
structure CacheFileData where
  file_stats : Option FileStats
  checksum : Option String
  legacy_size : Option Nat
  metadata : Payload
  timestamp : Nat
deriving DecidableEq, Repr

/-- A cache entry file on disk: either well-formed (parses as a non-empty
JSON document with a `metadata` field) or malformed (anything `json.load`
rejects; `CacheManager._load_cache` turns this into `{}`). -/
inductive DiskEntry where
  | wellFormed (d : CacheFileData)
  | malformed
deriving DecidableEq, Repr

/-- The `CacheManager`'s state: the in-memory/persisted `cache_index`
(archive path → cache file path) and the cache directory's files
(cache file path → content). -/
structure CacheState where
  cache_index : List (String × String)
  entry_files : List (String × DiskEntry)
deriving DecidableEq, Repr

/-! ## Association-list primitives -/

/-- Lookup in an association list (first match). -/
def lookupA : List (String × α) → String → Option α
  | [], _ => none
  | p :: ps, k => if p.1 == k then some p.2 else lookupA ps k

/-- Update/insert a binding, as assignment into a Python `dict` or an
overwriting file write: replace the first binding of `k` in place, else
append. -/
def setAssoc (l : List (String × α)) (k : String) (v : α) : List (String × α) :=
  match l with
  | [] => [(k, v)]
  | p :: ps => if p.1 == k then (k, v) :: ps else p :: setAssoc ps k v

/-- Delete a binding, as `del d[k]` / `os.remove`. -/
def eraseKey : List (String × α) → String → List (String × α)
  | [], _ => []
  | p :: ps, k => if p.1 == k then eraseKey ps k else p :: eraseKey ps k

/-! ## CacheManager -/

/-- The cache directory (`~/.audio_browser/cache` after `expanduser`); its
exact text is irrelevant, only that it is a fixed directory shared by all
cache files. -/
def CACHE_DIR : String := "HOME/.audio_browser/cache"

/-- `CacheManager._get_cache_file_path`: `os.path.join(cache_dir,
basename(zip_path) + ".cache")`.  Note the key is the archive's *base
filename*, not its full path. -/
def get_cache_file_path (zip_path : String) : String :=
  joinPath CACHE_DIR (basename zip_path ++ ".cache")

/-- `CacheManager._load_cache`: read and parse the cache file for
`zip_path`; a missing file, a parse failure, or an empty document all give a
cache miss (`{}` is falsy in the caller). -/
def load_cache (c : CacheState) (zip_path : String) : Option CacheFileData :=
  match lookupA c.entry_files (get_cache_file_path zip_path) with
  | some (.wellFormed d) => some d
  | some .malformed => none
  | none => none

/-- `CacheManager._save_cache`: overwrite the cache file for `zip_path`
(writes modelled as succeeding). -/
def save_cache (c : CacheState) (zip_path : String) (d : CacheFileData) : CacheState :=
  { c with entry_files := setAssoc c.entry_files (get_cache_file_path zip_path) (.wellFormed d) }

/-- `CacheManager.remove_from_cache`: delete the file recorded in the index
for `zip_path` and drop the index entry; a no-op when the path is not
indexed. -/
def remove_from_cache (c : CacheState) (zip_path : String) : CacheState :=
  match lookupA c.cache_index zip_path with
  | none => c
  | some cache_file =>
    { cache_index := eraseKey c.cache_index zip_path,
      entry_files := eraseKey c.entry_files cache_file }

/-- `CacheManager.get_cached_metadata`: serve the cached payload when the
entry is present and its fingerprint matches the archive's current stats,
upgrading legacy checksum-format entries whose stored size matches, and
removing invalid entries. -/
def get_cached_metadata (fs : FS) (c : CacheState) (zip_path : String) :
    Option Payload × CacheState :=
  if lookupA c.cache_index zip_path = none then (none, c)
  else match load_cache c zip_path with
  | none => (none, c)
  | some cd =>
    match lookupA fs zip_path with
    | none => (none, remove_from_cache c zip_path)
    | some arch =>
      match cd.file_stats with
      | some st =>
        if arch.stats.size ≠ st.size ∨ arch.stats.mtime ≠ st.mtime then
          (none, remove_from_cache c zip_path)
        else (some cd.metadata, c)
      | none =>
        match cd.checksum with
        | some _ =>
          if arch.stats.size ≠ cd.legacy_size.getD 0 then (none, remove_from_cache c zip_path)
          else
            (some cd.metadata,
             save_cache c zip_path { cd with file_stats := some arch.stats })
        | none => (none, remove_from_cache c zip_path)

/-- `CacheManager.cache_metadata` (the `file_bytes = None` form, the only one
the repository uses): stat the archive (`none` models the uncaught
`FileNotFoundError` when it is gone), write the fingerprint-format cache
file, and register the path in the index. -/
def cache_metadata (fs : FS) (c : CacheState) (zip_path : String) (metadata : Payload)
    (now : Nat) : Option CacheState :=
  match lookupA fs zip_path with
  | none => none
  | some arch =>
    some { save_cache c zip_path
             { file_stats := some arch.stats, checksum := none, legacy_size := none,
               metadata := metadata, timestamp := now } with
           cache_index := setAssoc c.cache_index zip_path (get_cache_file_path zip_path) }

/-! ## ZipManager -/

/-- The `ZipManager`'s state: the open archive handles (path → the central
directory snapshot taken when the handle was opened), the embedded
`CacheManager` state, and a counter of archive-I/O events (each
`zipfile.ZipFile(...)` construction counts one). -/
structure ZipState where
  open_zips : List (String × List ZEntry)
  cache : CacheState
  io_count : Nat
deriving DecidableEq, Repr

/-- The slice of `ZipManager.load_zip`'s timing dictionary the claims are
about: its `used_cache` flag. -/
structure LoadResult where
  used_cache : Bool
deriving DecidableEq, Repr

/-- `ZipManager._validate_zip` after the `ZipFile` construction succeeded:
an error string when the archive has no entry with a recognized audio
extension (note: the raw `filelist`, with no hidden/system-entry filter). -/
def validate_zip (arch : Archive) : Option String :=
  if !arch.isValidZip then some "ZIP file is invalid"
  else if (arch.names.filter isAudioName).isEmpty then some "No audio files found"
  else none

/-- `ZipManager.list_audio_files`: serve the cached `audio_files` list when
`get_cached_metadata` yields one (a `Payload` always carries the
`audio_files` key); otherwise `_ensure_zip_open` (opening the archive counts
one I/O and may fail) and scan the open handle's `namelist()`. -/
def list_audio_files (fs : FS) (s : ZipState) (zip_path : String) :
    Except String (List String) × ZipState :=
  match get_cached_metadata fs s.cache zip_path with
  | (some md, c') => (.ok md.audio_files, { s with cache := c' })
  | (none, c') =>
    let s1 : ZipState := { s with cache := c' }
    match lookupA s1.open_zips zip_path with
    | some entries => (.ok (scanAudioFiles (entries.map ZEntry.name)), s1)
    | none =>
      match lookupA fs zip_path with
      | none => (.error "ZIP file not found", s1)
      | some arch =>
        if arch.isValidZip then
          (.ok (scanAudioFiles arch.names),
           { s1 with io_count := s1.io_count + 1,
                     open_zips := setAssoc s1.open_zips zip_path arch.entries })
        else (.error "Invalid ZIP file", { s1 with io_count := s1.io_count + 1 })

/-- The per-file metadata record `ZipManager.load_zip` builds for one audio
file: `getinfo` size and `date_time`, plus the duration probe's result
(`get_audio_duration`; its own cache lookup is a miss with no state change at
this point of `load_zip`, so only the probe's answer remains). -/
def fileMetaFor (arch : Archive) (name : String) : Option FileMeta :=
  (arch.entries.find? (fun e => e.name == name)).map (fun e =>
    { size := e.file_size, timestamp := e.date_time, duration_ms := e.duration })

/-- `ZipManager.load_zip`: existence check, cache lookup (a hit returns with
no archive I/O), already-open short-circuit, validation (one I/O), listing,
per-file metadata extraction, and the cache write-back. -/
def load_zip (fs : FS) (s : ZipState) (zip_path : String) (now : Nat) :
    Except String LoadResult × ZipState :=
  if lookupA fs zip_path = none then (.error "ZIP file not found", s)
  else
    match get_cached_metadata fs s.cache zip_path with
    | (some _, c') => (.ok { used_cache := true }, { s with cache := c' })
    | (none, c') =>
      let s1 : ZipState := { s with cache := c' }
      if (lookupA s1.open_zips zip_path).isSome then (.ok { used_cache := true }, s1)
      else
        match lookupA fs zip_path with
        | none => (.error "ZIP file not found", s1)
        | some arch =>
          match validate_zip arch with
          | some err => (.error err, { s1 with io_count := s1.io_count + 1 })
          | none =>
            let s2 : ZipState :=
              { s1 with io_count := s1.io_count + 1,
                        open_zips := setAssoc s1.open_zips zip_path arch.entries }
            match list_audio_files fs s2 zip_path with
            | (.error e, s') => (.error e, s')
            | (.ok audio_files, s') =>
              let fm := audio_files.filterMap
                (fun f => (fileMetaFor arch f).map (fun m => (f, m)))
              let payload : Payload :=
                { audio_files := audio_files, total_files := arch.entries.length,
                  file_metadata := fm }
              match cache_metadata fs s'.cache zip_path payload now with
              | none => (.error "ZIP file not found", s')
              | some c'' => (.ok { used_cache := false }, { s' with cache := c'' })

/-- An output directory's contents: written file path → bytes. -/
abbrev Dir := List (String × List Nat)

/-- `ZipManager.extract_file`, over the open handle's central directory
(`_ensure_zip_open` already succeeded): check membership in `namelist()`,
write the entry's bytes to `os.path.join(output_dir,
os.path.basename(file_name))`, and return that path. -/
def extract_file (entries : List ZEntry) (file_name output_dir : String) (d : Dir) :
    Except String (String × Dir) :=
  match entries.find? (fun e => e.name == file_name) with
  | none => .error "File not found in ZIP"
  | some e =>
    let output_path := joinPath output_dir (basename file_name)
    .ok (output_path, setAssoc d output_path e.contents)

instance {ε α : Type} [DecidableEq ε] [DecidableEq α] : DecidableEq (Except ε α) := fun
  | .ok a, .ok b =>
    if h : a = b then .isTrue (congrArg Except.ok h)
    else .isFalse (fun hh => h (Except.ok.inj hh))
  | .error a, .error b =>
    if h : a = b then .isTrue (congrArg Except.error h)
    else .isFalse (fun hh => h (Except.error.inj hh))
  | .ok _, .error _ => .isFalse Except.noConfusion
  | .error _, .ok _ => .isFalse Except.noConfusion

/-! ## Association-list lemmas -/

theorem lookupA_setAssoc_self (l : List (String × α)) (k : String) (v : α) :
    lookupA (setAssoc l k v) k = some v := by
  induction l with
  | nil => simp [setAssoc, lookupA]
  | cons p ps ih =>
    by_cases h : p.1 = k
    · simp [setAssoc, lookupA, h]
    · simpa [setAssoc, lookupA, h] using ih

theorem lookupA_setAssoc_ne (l : List (String × α)) (k k' : String) (v : α)
    (h : k' ≠ k) : lookupA (setAssoc l k v) k' = lookupA l k' := by
  induction l with
  | nil => simp [setAssoc, lookupA, h, Ne.symm h]
  | cons p ps ih =>
    by_cases hp : p.1 = k
    · simp [setAssoc, lookupA, hp, h, Ne.symm h]
    · by_cases hp' : p.1 = k'
      · simp [setAssoc, lookupA, hp, hp', h, Ne.symm h]
      · simpa [setAssoc, lookupA, hp, hp'] using ih

theorem lookupA_eraseKey_self (l : List (String × α)) (k : String) :
    lookupA (eraseKey l k) k = none := by
  induction l with
  | nil => simp [eraseKey, lookupA]
  | cons p ps ih =>
    by_cases h : p.1 = k
    · simpa [eraseKey, h] using ih
    · simpa [eraseKey, lookupA, h] using ih

theorem lookupA_eraseKey_ne (l : List (String × α)) (k k' : String)
    (h : k' ≠ k) : lookupA (eraseKey l k) k' = lookupA l k' := by
  induction l with
  | nil => simp [eraseKey, lookupA]
  | cons p ps ih =>
    by_cases hp : p.1 = k
    · simpa [eraseKey, lookupA, hp, h, Ne.symm h] using ih
    · by_cases hp' : p.1 = k'
      · simp [eraseKey, lookupA, hp, hp', h, Ne.symm h]
      · simpa [eraseKey, lookupA, hp, hp'] using ih

/-! ## Behavioral lemmas about the cache layer -/

theorem save_cache_cache_index (c : CacheState) (A : String) (d : CacheFileData) :
    (save_cache c A d).cache_index = c.cache_index := rfl

theorem load_cache_save_self (c : CacheState) (A : String) (d : CacheFileData) :
    load_cache (save_cache c A d) A = some d := by
  simp [load_cache, save_cache, lookupA_setAssoc_self]

theorem remove_cache_index_self (c : CacheState) (A : String) :
    lookupA (remove_from_cache c A).cache_index A = none := by
  unfold remove_from_cache
  rcases h : lookupA c.cache_index A with _ | cf
  · simpa using h
  · simp [lookupA_eraseKey_self]

theorem get_of_not_indexed (fs : FS) (c : CacheState) (A : String)
    (h : lookupA c.cache_index A = none) :
    get_cached_metadata fs c A = (none, c) := by
  simp [get_cached_metadata, h]

theorem get_eval_fingerprint (fs : FS) (c : CacheState) (A : String)
    (cd : CacheFileData) (arch : Archive) (st : FileStats)
    (hidx : ¬ lookupA c.cache_index A = none) (hload : load_cache c A = some cd)
    (hfs : lookupA fs A = some arch) (hst : cd.file_stats = some st)
    (hsz : arch.stats.size = st.size) (hmt : arch.stats.mtime = st.mtime) :
    get_cached_metadata fs c A = (some cd.metadata, c) := by
  simp [get_cached_metadata, hidx, hload, hfs, hst, hsz, hmt]

theorem get_some_inv (fs : FS) (c : CacheState) (A : String) (p : Payload) (c' : CacheState)
    (h : get_cached_metadata fs c A = (some p, c')) :
    ¬ lookupA c.cache_index A = none ∧
    ∃ cd arch, load_cache c A = some cd ∧ lookupA fs A = some arch ∧ p = cd.metadata ∧
      ((∃ st, cd.file_stats = some st ∧ arch.stats.size = st.size ∧
          arch.stats.mtime = st.mtime ∧ c' = c) ∨
       (cd.file_stats = none ∧ ¬ cd.checksum = none ∧
          arch.stats.size = cd.legacy_size.getD 0 ∧
          c' = save_cache c A { cd with file_stats := some arch.stats })) := by
  by_cases hidx : lookupA c.cache_index A = none
  · simp [get_cached_metadata, hidx] at h
  · rcases hload : load_cache c A with _ | cd
    · simp [get_cached_metadata, hidx, hload] at h
    · rcases hfs : lookupA fs A with _ | arch
      · simp [get_cached_metadata, hidx, hload, hfs] at h
      · rcases hst : cd.file_stats with _ | st
        · rcases hck : cd.checksum with _ | ck
          · simp [get_cached_metadata, hidx, hload, hfs, hst, hck] at h
          · by_cases hsz : arch.stats.size = cd.legacy_size.getD 0
            · simp only [get_cached_metadata, if_neg hidx, hload, hfs, hst, hck,
                hsz, ne_eq, not_true_eq_false, if_false, Prod.mk.injEq] at h
              obtain ⟨h1, h2⟩ := h
              refine ⟨hidx, cd, arch, rfl, rfl, (Option.some.inj h1).symm,
                Or.inr ⟨hst, by simp [hck], hsz, ?_⟩⟩
              rw [hck]
              exact h2.symm
            · simp [get_cached_metadata, hidx, hload, hfs, hst, hck, hsz] at h
        · by_cases hsz : arch.stats.size = st.size
          · by_cases hmt : arch.stats.mtime = st.mtime
            · simp only [get_cached_metadata, if_neg hidx, hload, hfs, hst, hsz, hmt,
                ne_eq, not_true_eq_false, or_self, if_false, Prod.mk.injEq] at h
              obtain ⟨h1, h2⟩ := h
              exact ⟨hidx, cd, arch, rfl, rfl, (Option.some.inj h1).symm,
                Or.inl ⟨st, hst, hsz, hmt, h2.symm⟩⟩
            · simp [get_cached_metadata, hidx, hload, hfs, hst, hmt] at h
          · simp [get_cached_metadata, hidx, hload, hfs, hst, hsz] at h

theorem get_some_stable (fs : FS) (c : CacheState) (A : String) (p : Payload) (c' : CacheState)
    (h : get_cached_metadata fs c A = (some p, c')) :
    get_cached_metadata fs c' A = (some p, c') := by
  obtain ⟨hidx, cd, arch, hload, hfs, hp, hcase⟩ := get_some_inv fs c A p c' h
  subst hp
  rcases hcase with ⟨st, hst, hsz, hmt, hc⟩ | ⟨hst, hck, hsz, hc⟩
  · rw [hc]
    exact get_eval_fingerprint fs c A cd arch st hidx hload hfs hst hsz hmt
  · rw [hc]
    have := get_eval_fingerprint fs (save_cache c A { cd with file_stats := some arch.stats }) A
      { cd with file_stats := some arch.stats } arch arch.stats
      (by rw [save_cache_cache_index]; exact hidx)
      (load_cache_save_self c A _) hfs rfl rfl rfl
    simpa using this

theorem get_none_stable (fs : FS) (c : CacheState) (A : String) (c' : CacheState)
    (h : get_cached_metadata fs c A = (none, c')) :
    get_cached_metadata fs c' A = (none, c') := by
  by_cases hidx : lookupA c.cache_index A = none
  · rw [get_of_not_indexed fs c A hidx] at h
    have h2 : c = c' := congrArg Prod.snd h
    subst h2
    exact get_of_not_indexed fs c A hidx
  · rcases hload : load_cache c A with _ | cd
    · have hres : get_cached_metadata fs c A = (none, c) := by
        simp [get_cached_metadata, hidx, hload]
      rw [hres] at h
      have h2 : c = c' := congrArg Prod.snd h
      subst h2
      exact hres
    · -- Every remaining branch that returns `none` also removes the entry,
      -- after which the path is no longer indexed.
      have hrm : remove_from_cache c A = c' := by
        rcases hfs : lookupA fs A with _ | arch
        · simpa [get_cached_metadata, hidx, hload, hfs] using congrArg Prod.snd h
        · rcases hst : cd.file_stats with _ | st
          · rcases hck : cd.checksum with _ | ck
            · simpa [get_cached_metadata, hidx, hload, hfs, hst, hck] using
                congrArg Prod.snd h
            · by_cases hsz : arch.stats.size = cd.legacy_size.getD 0
              · simp [get_cached_metadata, hidx, hload, hfs, hst, hck, hsz] at h
              · simpa [get_cached_metadata, hidx, hload, hfs, hst, hck, hsz] using
                  congrArg Prod.snd h
          · by_cases hsz : arch.stats.size = st.size
            · by_cases hmt : arch.stats.mtime = st.mtime
              · simp [get_cached_metadata, hidx, hload, hfs, hst, hsz, hmt] at h
              · simpa [get_cached_metadata, hidx, hload, hfs, hst, hmt] using
                  congrArg Prod.snd h
            · simpa [get_cached_metadata, hidx, hload, hfs, hst, hsz] using
                congrArg Prod.snd h
      subst hrm
      exact get_of_not_indexed fs _ A (remove_cache_index_self c A)

theorem get_after_store (fs : FS) (c : CacheState) (A : String) (p : Payload) (now : Nat)
    (arch : Archive) (c' : CacheState)
    (hfs : lookupA fs A = some arch)
    (hst : cache_metadata fs c A p now = some c') :
    get_cached_metadata fs c' A = (some p, c') := by
  simp only [cache_metadata, hfs] at hst
  have h2 := Option.some.inj hst
  subst h2
  exact get_eval_fingerprint fs _ A
    { file_stats := some arch.stats, checksum := none, legacy_size := none,
      metadata := p, timestamp := now } arch arch.stats
    (by simp [save_cache, lookupA_setAssoc_self])
    (by simp [load_cache, save_cache, lookupA_setAssoc_self]) hfs rfl rfl rfl

/-! ## Behavioral lemmas about `list_audio_files` and `load_zip` -/

theorem list_audio_files_of_cached (fs : FS) (s : ZipState) (A : String) (p : Payload)
    (hget : get_cached_metadata fs s.cache A = (some p, s.cache)) :
    list_audio_files fs s A = (.ok p.audio_files, s) := by
  simp only [list_audio_files, hget]

theorem list_audio_files_of_open (fs : FS) (s : ZipState) (A : String) (entries : List ZEntry)
    (hget : get_cached_metadata fs s.cache A = (none, s.cache))
    (hopen : lookupA s.open_zips A = some entries) :
    list_audio_files fs s A = (.ok (scanAudioFiles (entries.map ZEntry.name)), s) := by
  simp only [list_audio_files, hget, hopen]

/-- Master lemma: a successful `load_zip` (on a path with no pre-existing
open handle) leaves the cache holding a stable payload for the archive, and
when the scan path ran, that payload's list is exactly the live scan of the
archive's central directory. -/
theorem load_zip_ok_spec (fs : FS) (s : ZipState) (A : String) (now : Nat)
    (r₁ : LoadResult) (s₁ : ZipState)
    (hA : lookupA s.open_zips A = none)
    (h : load_zip fs s A now = (.ok r₁, s₁)) :
    ∃ arch p, lookupA fs A = some arch ∧
      get_cached_metadata fs s₁.cache A = (some p, s₁.cache) ∧
      (r₁.used_cache = false → p.audio_files = scanAudioFiles arch.names) := by
  simp only [load_zip] at h
  split at h
  · simp at h
  next hfs0 =>
    split at h
    next p c' hget =>
      -- cache hit on the first call
      rcases hfsv : lookupA fs A with _ | arch
      · exact absurd hfsv hfs0
      have hr : LoadResult.mk true = r₁ := Except.ok.inj (congrArg Prod.fst h)
      have hs : { s with cache := c' } = s₁ := congrArg Prod.snd h
      refine ⟨arch, p, rfl, ?_, ?_⟩
      · rw [← hs]
        exact get_some_stable fs s.cache A p c' hget
      · intro hfalse
        rw [← hr] at hfalse
        simp at hfalse
    next c' hget =>
      -- cache miss
      simp only [hA, Option.isSome_none, Bool.false_eq_true, if_false] at h
      split at h
      next hfs1 => simp at h
      next arch hfs1 =>
      split at h
      next => simp at h
      next hv =>
      split at h
      next e s' heq3 =>
        -- the listing step cannot fail here
        rw [list_audio_files_of_open fs _ A arch.entries
          (get_none_stable fs s.cache A c' hget) (lookupA_setAssoc_self _ _ _)] at heq3
        simp at heq3
      next audio_files s' heq3 =>
      rw [list_audio_files_of_open fs _ A arch.entries
        (get_none_stable fs s.cache A c' hget) (lookupA_setAssoc_self _ _ _)] at heq3
      have hafiles := congrArg Prod.fst heq3
      split at h
      next hcm => simp [cache_metadata, hfs1] at hcm
      next c'' hcm =>
      have hr : LoadResult.mk false = r₁ := Except.ok.inj (congrArg Prod.fst h)
      have hs : { s' with cache := c'' } = s₁ := congrArg Prod.snd h
      have hpl := get_after_store fs s'.cache A _ now arch c'' hfs1 hcm
      subst hs
      exact ⟨arch, _, hfs1, hpl, fun _ => (Except.ok.inj hafiles).symm⟩

/-! ## Concrete fixtures used by the witnesses -/

/-- A small valid archive with one audio entry. -/
def wArch : Archive :=
  { stats := ⟨10, 5⟩,
    entries := [⟨"x.wav", 4, [2024, 1, 1], some 100, [1, 2]⟩], isValidZip := true }

/-- A one-archive filesystem holding `wArch` at `"d/a.zip"`. -/
def wFS : FS := [("d/a.zip", wArch)]

/-- A fresh `ZipManager`: nothing open, empty cache, no I/O performed. -/
def wS0 : ZipState := ⟨[], ⟨[], []⟩, 0⟩

/-- The state after a first (scanning) `load_zip` of `"d/a.zip"`. -/
def wS1 : ZipState := (load_zip wFS wS0 "d/a.zip" 7).2

example :
    (load_zip wFS wS0 "d/a.zip" 7).1 = .ok { used_cache := false } ∧
    wS1.io_count = 1 ∧
    (list_audio_files wFS wS1 "d/a.zip").1 = .ok ["x.wav"] := by
  decide

/-! ## Claims -/

/-- **C1**: after a first successful `open(A)` (`load_zip`) from a state with
no open handle for `A`, and with `A`'s size and modification time unchanged
(the filesystem `fs` is the same), a second `open(A)` is a pure cache hit: it
returns `used_cache = true` and leaves the state — in particular the archive
I/O counter — exactly unchanged, and `list_audio_files(A)` after the second
open returns a list identical in content and order to the list returned after
the first open. -/
theorem load_zip_second_open_pure_cache_hit
    (fs : FS) (s : ZipState) (A : String) (now now2 : Nat) (r₁ : LoadResult) (s₁ : ZipState)
    (hA : lookupA s.open_zips A = none)
    (h : load_zip fs s A now = (Except.ok r₁, s₁)) :
    load_zip fs s₁ A now2 = (Except.ok { used_cache := true }, s₁) ∧
    (load_zip fs s₁ A now2).2.io_count = s₁.io_count ∧
    (list_audio_files fs ((load_zip fs s₁ A now2).2) A).1 =
      (list_audio_files fs s₁ A).1 := by
  obtain ⟨arch, p, hfsv, hget, -⟩ := load_zip_ok_spec fs s A now r₁ s₁ hA h
  have h2 : load_zip fs s₁ A now2 = (Except.ok { used_cache := true }, s₁) := by
    simp [load_zip, hfsv, hget]
  exact ⟨h2, by rw [h2], by rw [h2]⟩

/-- **C1 witness**: concrete two-open scenario on `wFS`. -/
theorem load_zip_second_open_pure_cache_hit_witness :
    load_zip wFS wS1 "d/a.zip" 8 = (Except.ok { used_cache := true }, wS1) ∧
    (load_zip wFS wS1 "d/a.zip" 8).2.io_count = wS1.io_count ∧
    (list_audio_files wFS ((load_zip wFS wS1 "d/a.zip" 8).2) "d/a.zip").1 =
      (list_audio_files wFS wS1 "d/a.zip").1 :=
  load_zip_second_open_pure_cache_hit wFS wS0 "d/a.zip" 7 8 { used_cache := false } wS1
    (by decide) (by decide)

/-- **C2**: the enumeration order is deterministic — folders sorted
case-insensitively, files within a folder sorted case-insensitively by base
name — so the scan of `["drums/kick.wav", "drums/Snare.wav", "amb/room.ogg"]`
yields `["amb/room.ogg", "drums/kick.wav", "drums/Snare.wav"]`; and after any
`load_zip` that took the scan path (`used_cache = false`), the cache read
path of `list_audio_files` reproduces exactly the live scan's list. -/
theorem list_audio_files_deterministic_order :
    (scanAudioFiles ["drums/kick.wav", "drums/Snare.wav", "amb/room.ogg"] =
      ["amb/room.ogg", "drums/kick.wav", "drums/Snare.wav"]) ∧
    ∀ (fs : FS) (s : ZipState) (A : String) (arch : Archive) (now : Nat)
      (r : LoadResult) (s₁ : ZipState),
      lookupA fs A = some arch → lookupA s.open_zips A = none →
      load_zip fs s A now = (Except.ok r, s₁) → r.used_cache = false →
      (list_audio_files fs s₁ A).1 = Except.ok (scanAudioFiles arch.names) := by
  refine ⟨by decide, ?_⟩
  intro fs s A arch now r s₁ hfs hA h hr
  obtain ⟨arch', p, hfsv, hget, hscan⟩ := load_zip_ok_spec fs s A now r s₁ hA h
  rw [hfs] at hfsv
  cases Option.some.inj hfsv
  rw [list_audio_files_of_cached fs s₁ A p hget, hscan hr]

/-- **C2 witness**: the scan-path/cache-path agreement at the concrete
fixture archive. -/
theorem list_audio_files_deterministic_order_witness :
    (list_audio_files wFS wS1 "d/a.zip").1 = Except.ok (scanAudioFiles wArch.names) :=
  list_audio_files_deterministic_order.2 wFS wS0 "d/a.zip" wArch 7
    { used_cache := false } wS1 (by decide) (by decide) (by decide) (by decide)

/-- **C3**: `store` (`cache_metadata`) followed by `getValidMetadata`
(`get_cached_metadata`) for the same path, with the archive untouched in
between (same filesystem), returns a payload equal to the payload that was
stored. -/
theorem cache_store_roundtrip
    (fs : FS) (c : CacheState) (A : String) (p : Payload) (now : Nat)
    (arch : Archive) (c' : CacheState)
    (hfs : lookupA fs A = some arch)
    (hst : cache_metadata fs c A p now = some c') :
    get_cached_metadata fs c' A = (some p, c') :=
  get_after_store fs c A p now arch c' hfs hst

/-- An empty cache. -/
def wC0 : CacheState := ⟨[], []⟩

/-- A small payload fixture. -/
def wPayload : Payload := ⟨["x.wav"], 1, [("x.wav", ⟨4, [2024, 1, 1], some 100⟩)]⟩

/-- The cache state after storing `wPayload` for `"d/a.zip"`. -/
def wCStored : CacheState := (cache_metadata wFS wC0 "d/a.zip" wPayload 3).getD wC0

/-- **C3 witness**: concrete store/read round trip. -/
theorem cache_store_roundtrip_witness :
    get_cached_metadata wFS wCStored "d/a.zip" = (some wPayload, wCStored) :=
  cache_store_roundtrip wFS wC0 "d/a.zip" wPayload 3 wArch wCStored (by decide) (by decide)

/-- **C4**: a legacy checksum-format entry, read against an archive whose
current size matches the legacy stored size, is returned as valid AND its
cache file is rewritten in fingerprint format; the subsequent read is served
by the fingerprint branch and no longer depends on the `checksum` field (the
same read succeeds identically whatever `ck2` the field holds, including
`none`). -/
theorem legacy_checksum_entry_upgraded
    (fs : FS) (c : CacheState) (A : String) (cd : CacheFileData) (arch : Archive)
    (ck2 : Option String)
    (hidx : ¬ lookupA c.cache_index A = none)
    (hfile : lookupA c.entry_files (get_cache_file_path A) = some (.wellFormed cd))
    (hleg : cd.file_stats = none) (hck : ¬ cd.checksum = none)
    (hfs : lookupA fs A = some arch)
    (hsz : arch.stats.size = cd.legacy_size.getD 0) :
    get_cached_metadata fs c A =
      (some cd.metadata, save_cache c A { cd with file_stats := some arch.stats }) ∧
    load_cache (save_cache c A { cd with file_stats := some arch.stats }) A =
      some { cd with file_stats := some arch.stats } ∧
    get_cached_metadata fs (save_cache c A { cd with file_stats := some arch.stats }) A =
      (some cd.metadata, save_cache c A { cd with file_stats := some arch.stats }) ∧
    get_cached_metadata fs
        (save_cache c A { cd with file_stats := some arch.stats, checksum := ck2 }) A =
      (some cd.metadata,
       save_cache c A { cd with file_stats := some arch.stats, checksum := ck2 }) := by
  have hload : load_cache c A = some cd := by simp [load_cache, hfile]
  rcases hckv : cd.checksum with _ | ckv
  · exact absurd hckv hck
  refine ⟨?_, load_cache_save_self c A _, ?_, ?_⟩
  · simp [get_cached_metadata, hidx, hload, hfs, hleg, hckv, hsz]
  · have := get_eval_fingerprint fs (save_cache c A { cd with file_stats := some arch.stats }) A
      { cd with file_stats := some arch.stats } arch arch.stats
      (by rw [save_cache_cache_index]; exact hidx)
      (load_cache_save_self c A _) hfs rfl rfl rfl
    rw [hckv] at this
    simpa using this
  · have := get_eval_fingerprint fs
      (save_cache c A { cd with file_stats := some arch.stats, checksum := ck2 }) A
      { cd with file_stats := some arch.stats, checksum := ck2 } arch arch.stats
      (by rw [save_cache_cache_index]; exact hidx)
      (load_cache_save_self c A _) hfs rfl rfl rfl
    simpa using this

/-- A legacy checksum-format cache state for `"d/a.zip"`: indexed, with a
checksum entry whose stored size matches `wArch`'s current size. -/
def wCLegacyData : CacheFileData :=
  { file_stats := none, checksum := some "abc", legacy_size := some 10,
    metadata := wPayload, timestamp := 2 }

def wCLegacy : CacheState :=
  ⟨[("d/a.zip", get_cache_file_path "d/a.zip")],
   [(get_cache_file_path "d/a.zip", .wellFormed wCLegacyData)]⟩

/-- **C4 witness**: the concrete legacy entry is served and upgraded. -/
theorem legacy_checksum_entry_upgraded_witness :
    get_cached_metadata wFS wCLegacy "d/a.zip" =
      (some wCLegacyData.metadata,
       save_cache wCLegacy "d/a.zip" { wCLegacyData with file_stats := some wArch.stats }) ∧
    load_cache (save_cache wCLegacy "d/a.zip"
        { wCLegacyData with file_stats := some wArch.stats }) "d/a.zip" =
      some { wCLegacyData with file_stats := some wArch.stats } ∧
    get_cached_metadata wFS (save_cache wCLegacy "d/a.zip"
        { wCLegacyData with file_stats := some wArch.stats }) "d/a.zip" =
      (some wCLegacyData.metadata,
       save_cache wCLegacy "d/a.zip" { wCLegacyData with file_stats := some wArch.stats }) ∧
    get_cached_metadata wFS (save_cache wCLegacy "d/a.zip"
        { wCLegacyData with file_stats := some wArch.stats, checksum := none }) "d/a.zip" =
      (some wCLegacyData.metadata,
       save_cache wCLegacy "d/a.zip"
         { wCLegacyData with file_stats := some wArch.stats, checksum := none }) :=
  legacy_checksum_entry_upgraded wFS wCLegacy "d/a.zip" wCLegacyData wArch none
    (by decide) (by decide) (by decide) (by decide) (by decide) (by decide)

/-- **C5**: a fingerprint-format cache entry is served only while the
archive's observed `(size, mtime)` equals the stored fingerprint; whenever
either observed value differs, `get_cached_metadata` removes the entry
(de-indexing the path) and returns `none`, and a subsequent read is a miss,
so the previously cached list cannot be reused. -/
theorem fingerprint_mismatch_invalidates
    (fs : FS) (c : CacheState) (A : String) (cd : CacheFileData)
    (st : FileStats) (arch : Archive)
    (hidx : ¬ lookupA c.cache_index A = none)
    (hfile : lookupA c.entry_files (get_cache_file_path A) = some (.wellFormed cd))
    (hfp : cd.file_stats = some st)
    (hfs : lookupA fs A = some arch) :
    ((get_cached_metadata fs c A).1 ≠ none → arch.stats = st) ∧
    (arch.stats.size ≠ st.size ∨ arch.stats.mtime ≠ st.mtime →
      get_cached_metadata fs c A = (none, remove_from_cache c A) ∧
      lookupA (remove_from_cache c A).cache_index A = none ∧
      (get_cached_metadata fs (remove_from_cache c A) A).1 = none) := by
  have hload : load_cache c A = some cd := by simp [load_cache, hfile]
  constructor
  · intro hne
    by_cases hsz : arch.stats.size = st.size
    · by_cases hmt : arch.stats.mtime = st.mtime
      · have h1 : arch.stats = ⟨st.size, st.mtime⟩ := by rw [← hsz, ← hmt]
        exact h1
      · have : get_cached_metadata fs c A = (none, remove_from_cache c A) := by
          simp [get_cached_metadata, hidx, hload, hfs, hfp, hmt]
        rw [this] at hne
        simp at hne
    · have : get_cached_metadata fs c A = (none, remove_from_cache c A) := by
        simp [get_cached_metadata, hidx, hload, hfs, hfp, hsz]
      rw [this] at hne
      simp at hne
  · intro hor
    have hget : get_cached_metadata fs c A = (none, remove_from_cache c A) := by
      simp only [get_cached_metadata, if_neg hidx, hload, hfs, hfp]
      rw [if_pos hor]
    exact ⟨hget, remove_cache_index_self c A,
      by rw [get_of_not_indexed fs _ A (remove_cache_index_self c A)]⟩

/-- A fingerprint-format cache state for `"d/a.zip"` whose stored fingerprint
does not match `wArch`'s current stats (stale mtime). -/
def wCStaleData : CacheFileData :=
  { file_stats := some ⟨10, 4⟩, checksum := none, legacy_size := none,
    metadata := wPayload, timestamp := 2 }

def wCStale : CacheState :=
  ⟨[("d/a.zip", get_cache_file_path "d/a.zip")],
   [(get_cache_file_path "d/a.zip", .wellFormed wCStaleData)]⟩

/-- **C5 witness**: the concrete stale entry is removed and stays a miss. -/
theorem fingerprint_mismatch_invalidates_witness :
    ((get_cached_metadata wFS wCStale "d/a.zip").1 ≠ none → wArch.stats = ⟨10, 4⟩) ∧
    (wArch.stats.size ≠ (10 : Nat) ∨ wArch.stats.mtime ≠ (4 : Int) →
      get_cached_metadata wFS wCStale "d/a.zip" = (none, remove_from_cache wCStale "d/a.zip") ∧
      lookupA (remove_from_cache wCStale "d/a.zip").cache_index "d/a.zip" = none ∧
      (get_cached_metadata wFS (remove_from_cache wCStale "d/a.zip") "d/a.zip").1 = none) :=
  fingerprint_mismatch_invalidates wFS wCStale "d/a.zip" wCStaleData ⟨10, 4⟩ wArch
    (by decide) (by decide) (by decide) (by decide)

/-- **C7**: a malformed cache entry file degrades to a miss —
`get_cached_metadata` returns `none` with the state unchanged (the parse
failure is caught inside `_load_cache`, never raised) — and a subsequent
`cache_metadata` for the path succeeds, overwrites the corrupt file with a
well-formed fingerprint entry, and the stored payload is then served. -/
theorem corrupt_cache_entry_degrades_to_miss
    (fs : FS) (c : CacheState) (A : String) (p : Payload) (now : Nat)
    (arch : Archive) (c' : CacheState)
    (hfile : lookupA c.entry_files (get_cache_file_path A) = some DiskEntry.malformed)
    (hfs : lookupA fs A = some arch)
    (hst : cache_metadata fs c A p now = some c') :
    get_cached_metadata fs c A = (none, c) ∧
    lookupA c'.entry_files (get_cache_file_path A) =
      some (DiskEntry.wellFormed
        { file_stats := some arch.stats, checksum := none, legacy_size := none,
          metadata := p, timestamp := now }) ∧
    get_cached_metadata fs c' A = (some p, c') := by
  have hload : load_cache c A = none := by simp [load_cache, hfile]
  have hmiss : get_cached_metadata fs c A = (none, c) := by
    by_cases hidx : lookupA c.cache_index A = none
    · exact get_of_not_indexed fs c A hidx
    · simp [get_cached_metadata, hidx, hload]
  have hroundtrip := get_after_store fs c A p now arch c' hfs hst
  refine ⟨hmiss, ?_, hroundtrip⟩
  simp only [cache_metadata, hfs] at hst
  have h2 := Option.some.inj hst
  rw [← h2]
  simp [save_cache, lookupA_setAssoc_self]

/-- A cache state whose entry file for `"d/a.zip"` is malformed. -/
def wCCorrupt : CacheState :=
  ⟨[("d/a.zip", get_cache_file_path "d/a.zip")],
   [(get_cache_file_path "d/a.zip", .malformed)]⟩

/-- The cache state after overwriting the corrupt entry with a store. -/
def wCRepaired : CacheState := (cache_metadata wFS wCCorrupt "d/a.zip" wPayload 9).getD wC0

/-- **C7 witness**: concrete corrupt entry — miss, then store succeeds and
overwrites. -/
theorem corrupt_cache_entry_degrades_to_miss_witness :
    get_cached_metadata wFS wCCorrupt "d/a.zip" = (none, wCCorrupt) ∧
    lookupA wCRepaired.entry_files (get_cache_file_path "d/a.zip") =
      some (DiskEntry.wellFormed
        { file_stats := some wArch.stats, checksum := none, legacy_size := none,
          metadata := wPayload, timestamp := 9 }) ∧
    get_cached_metadata wFS wCRepaired "d/a.zip" = (some wPayload, wCRepaired) :=
  corrupt_cache_entry_degrades_to_miss wFS wCCorrupt "d/a.zip" wPayload 9 wArch wCRepaired
    (by decide) (by decide) (by decide)

theorem mem_insertSorted (lt : α → α → Bool) (a x : α) (l : List α) :
    x ∈ insertSorted lt a l ↔ x = a ∨ x ∈ l := by
  induction l with
  | nil => simp [insertSorted]
  | cons b bs ih =>
    by_cases h : lt b a = true <;> simp [insertSorted, h, ih] <;> tauto

theorem mem_insertionSort (lt : α → α → Bool) (x : α) (l : List α) :
    x ∈ insertionSort lt l ↔ x ∈ l := by
  induction l with
  | nil => simp [insertionSort]
  | cons a as ih => simp [insertionSort, mem_insertSorted, ih]

/-- The two-entry macOS fixture archive of the spec's hidden-entry scenario. -/
def wArchMac : Archive :=
  { stats := ⟨20, 6⟩,
    entries := [⟨"__MACOSX/._audio1.wav", 1, [], none, []⟩,
                ⟨"audio1.wav", 2, [], some 5, [0]⟩],
    isValidZip := true }

def wFSMac : FS := [("m.zip", wArchMac)]

/-- **C6**: every entry whose name begins with the hidden-file marker `._` or
with the platform metadata folder `__MACOSX` (so every entry lying under that
root folder) is excluded from the enumeration entirely, whatever its
extension; and the archive holding `__MACOSX/._audio1.wav` and `audio1.wav`
enumerates to exactly `["audio1.wav"]`. -/
theorem hidden_system_entries_excluded :
    (∀ (names : List String) (name : String),
      (strStartsWith name "__MACOSX" || strStartsWith name "._") = true →
      name ∉ scanAudioFiles names) ∧
    (list_audio_files wFSMac wS0 "m.zip").1 = Except.ok ["audio1.wav"] := by
  refine ⟨?_, by decide⟩
  intro names name hpre hmem
  simp only [scanAudioFiles, List.mem_flatten, List.mem_map] at hmem
  obtain ⟨l, ⟨folder, -, hl⟩, hname⟩ := hmem
  rw [← hl, mem_insertionSort, List.mem_filter] at hname
  obtain ⟨hkept, -⟩ := hname
  rw [List.mem_filter] at hkept
  have hk : keptEntry name = true := hkept.2
  rw [keptEntry, hpre] at hk
  simp at hk

/-- **C6 witness**: the hidden entry itself is not enumerated. -/
theorem hidden_system_entries_excluded_witness :
    "__MACOSX/._audio1.wav" ∉ scanAudioFiles ["__MACOSX/._audio1.wav", "audio1.wav"] :=
  hidden_system_entries_excluded.1 ["__MACOSX/._audio1.wav", "audio1.wav"]
    "__MACOSX/._audio1.wav" (by decide)

/-- **C9**: `extract_file` writes an entry to `output_dir` joined with the
entry's base filename, discarding the folder structure; hence two entries
with equal base filenames extracted to the same directory yield the same
written path, and the second extraction overwrites the first file's bytes. -/
theorem extract_file_flattens_paths
    (entries : List ZEntry) (n1 n2 outdir : String) (d : Dir) (e1 e2 : ZEntry)
    (h1 : entries.find? (fun e => e.name == n1) = some e1)
    (h2 : entries.find? (fun e => e.name == n2) = some e2)
    (hb : basename n1 = basename n2) :
    extract_file entries n1 outdir d =
      .ok (joinPath outdir (basename n1),
           setAssoc d (joinPath outdir (basename n1)) e1.contents) ∧
    extract_file entries n2 outdir (setAssoc d (joinPath outdir (basename n1)) e1.contents) =
      .ok (joinPath outdir (basename n1),
           setAssoc (setAssoc d (joinPath outdir (basename n1)) e1.contents)
             (joinPath outdir (basename n1)) e2.contents) ∧
    lookupA (setAssoc (setAssoc d (joinPath outdir (basename n1)) e1.contents)
        (joinPath outdir (basename n1)) e2.contents) (joinPath outdir (basename n1)) =
      some e2.contents := by
  refine ⟨?_, ?_, lookupA_setAssoc_self _ _ _⟩
  · simp [extract_file, h1]
  · simp [extract_file, h2, ← hb]

/-- Fixture entries with a shared base filename in different folders. -/
def wEntries : List ZEntry :=
  [⟨"a/s.wav", 1, [], none, [1]⟩, ⟨"b/s.wav", 2, [], none, [2]⟩]

/-- **C9 witness**: extracting `a/s.wav` then `b/s.wav` into `out` writes the
same path twice; the second write wins. -/
theorem extract_file_flattens_paths_witness :
    extract_file wEntries "a/s.wav" "out" [] =
      .ok (joinPath "out" (basename "a/s.wav"),
           setAssoc [] (joinPath "out" (basename "a/s.wav")) [1]) ∧
    extract_file wEntries "b/s.wav" "out"
        (setAssoc [] (joinPath "out" (basename "a/s.wav")) [1]) =
      .ok (joinPath "out" (basename "a/s.wav"),
           setAssoc (setAssoc [] (joinPath "out" (basename "a/s.wav")) [1])
             (joinPath "out" (basename "a/s.wav")) [2]) ∧
    lookupA (setAssoc (setAssoc [] (joinPath "out" (basename "a/s.wav")) [1])
        (joinPath "out" (basename "a/s.wav")) [2]) (joinPath "out" (basename "a/s.wav")) =
      some [2] :=
  extract_file_flattens_paths wEntries "a/s.wav" "b/s.wav" "out" []
    ⟨"a/s.wav", 1, [], none, [1]⟩ ⟨"b/s.wav", 2, [], none, [2]⟩
    (by decide) (by decide) (by decide)

/-- An archive whose only recognized-extension entry is a hidden platform
metadata entry. -/
def wArchHidden : Archive :=
  { stats := ⟨30, 7⟩, entries := [⟨"__MACOSX/._a.wav", 1, [], none, []⟩],
    isValidZip := true }

def wFSHidden : FS := [("h.zip", wArchHidden)]

/-- **C10**: validation (`_validate_zip`) counts recognized-extension entries
over the raw `filelist` without the hidden/system filter, so an archive whose
recognized-extension entries are all hidden passes validation; an archive all
of whose entries are hidden/system scans to the empty list; and concretely,
opening the archive containing only `__MACOSX/._a.wav` succeeds while its
enumeration is empty. -/
theorem validate_zip_ignores_hidden_filter :
    (∀ arch : Archive, arch.isValidZip = true → arch.names.filter isAudioName ≠ [] →
      validate_zip arch = none) ∧
    (∀ names : List String,
      (∀ n ∈ names, (strStartsWith n "__MACOSX" || strStartsWith n "._") = true) →
      scanAudioFiles names = []) ∧
    (load_zip wFSHidden wS0 "h.zip" 0).1 = Except.ok { used_cache := false } ∧
    (list_audio_files wFSHidden ((load_zip wFSHidden wS0 "h.zip" 0).2) "h.zip").1 =
      Except.ok [] := by
  refine ⟨?_, ?_, by decide, by decide⟩
  · intro arch hvalid hne
    simp [validate_zip, hvalid, hne]
  · intro names hall
    have hker : names.filter keptEntry = [] := by
      rw [List.filter_eq_nil_iff]
      intro n hn
      rw [keptEntry, hall n hn]
      simp
    simp [scanAudioFiles, hker, dedupFirst, insertionSort]

/-- **C10 witness**: the concrete all-hidden archive passes validation and
scans to the empty list. -/
theorem validate_zip_ignores_hidden_filter_witness :
    validate_zip wArchHidden = none ∧ scanAudioFiles ["__MACOSX/._a.wav"] = [] :=
  ⟨validate_zip_ignores_hidden_filter.1 wArchHidden (by decide) (by decide),
   validate_zip_ignores_hidden_filter.2.1 ["__MACOSX/._a.wav"] (by decide)⟩

/-! ## C8: cache keying -/

theorem basename_no_slash (s : String) (c : Char) (hc : c ∈ (basename s).data) :
    ¬ c = '/' := by
  simp only [basename, afterLastSlash, List.mem_reverse] at hc
  have := List.mem_takeWhile_imp hc
  simpa using this

theorem get_cache_file_path_inj (A B : String)
    (h : get_cache_file_path A = get_cache_file_path B) : basename A = basename B := by
  have hstart : ∀ s : String, strStartsWith (basename s ++ ".cache") "/" = false := by
    intro s
    rcases hbd : (basename s).data with _ | ⟨c, cs⟩
    · have : (basename s ++ ".cache").data = ".cache".data := by
        show (basename s).data ++ ".cache".data = ".cache".data
        rw [hbd]
        rfl
      simp [strStartsWith, this, List.isPrefixOf]
    · have hne : ¬ c = '/' := basename_no_slash s c (by rw [hbd]; exact List.mem_cons_self c cs)
      have : (basename s ++ ".cache").data = c :: (cs ++ ".cache".data) := by
        show (basename s).data ++ ".cache".data = c :: (cs ++ ".cache".data)
        rw [hbd]
        rfl
      simp [strStartsWith, this, List.isPrefixOf, Ne.symm hne]
  have hjoin : ∀ s : String, get_cache_file_path s = CACHE_DIR ++ "/" ++ (basename s ++ ".cache") := by
    intro s
    have hcd : (CACHE_DIR == "" || (CACHE_DIR.data.getLast? == some '/')) = false := by decide
    rw [get_cache_file_path, joinPath, hstart s]
    simp [hcd]
  rw [hjoin A, hjoin B] at h
  have hdata : (CACHE_DIR ++ "/").data ++ (basename A ++ ".cache").data =
      (CACHE_DIR ++ "/").data ++ (basename B ++ ".cache").data := by
    have := congrArg String.data h
    simpa using this
  have h2 : (basename A ++ ".cache").data = (basename B ++ ".cache").data :=
    List.append_cancel_left hdata
  have h3 : (basename A).data ++ ".cache".data = (basename B).data ++ ".cache".data := h2
  have h4 : (basename A).data = (basename B).data := List.append_cancel_right h3
  cases hA : basename A
  cases hB : basename B
  rw [hA, hB] at h4
  exact congrArg String.mk h4

theorem get_fst_congr (fs : FS) (c1 c2 : CacheState) (A : String)
    (hi : lookupA c1.cache_index A = lookupA c2.cache_index A)
    (hf : lookupA c1.entry_files (get_cache_file_path A) =
          lookupA c2.entry_files (get_cache_file_path A)) :
    (get_cached_metadata fs c1 A).1 = (get_cached_metadata fs c2 A).1 := by
  have hload : load_cache c1 A = load_cache c2 A := by
    simp only [load_cache, hf]
  by_cases hidx : lookupA c2.cache_index A = none
  · rw [get_of_not_indexed fs c1 A (hi.trans hidx), get_of_not_indexed fs c2 A hidx]
  · have hidx1 : ¬ lookupA c1.cache_index A = none := by rw [hi]; exact hidx
    rcases hl2 : load_cache c2 A with _ | cd
    · have hl1 : load_cache c1 A = none := hload.trans hl2
      simp [get_cached_metadata, hidx, hidx1, hl1, hl2]
    · have hl1 : load_cache c1 A = some cd := hload.trans hl2
      rcases hfs : lookupA fs A with _ | arch
      · simp [get_cached_metadata, hidx, hidx1, hl1, hl2, hfs]
      · rcases hst : cd.file_stats with _ | st
        · rcases hck : cd.checksum with _ | ck
          · simp [get_cached_metadata, hidx, hidx1, hl1, hl2, hfs, hst, hck]
          · by_cases hsz : arch.stats.size = cd.legacy_size.getD 0
            · simp [get_cached_metadata, hidx, hidx1, hl1, hl2, hfs, hst, hck, hsz]
            · simp [get_cached_metadata, hidx, hidx1, hl1, hl2, hfs, hst, hck, hsz]
        · by_cases hsz : arch.stats.size = st.size
          · by_cases hmt : arch.stats.mtime = st.mtime
            · simp [get_cached_metadata, hidx, hidx1, hl1, hl2, hfs, hst, hsz, hmt]
            · simp [get_cached_metadata, hidx, hidx1, hl1, hl2, hfs, hst, hmt]
          · simp [get_cached_metadata, hidx, hidx1, hl1, hl2, hfs, hst, hsz]

/-- Two archives placed at distinct paths that share the base filename
`x.zip`. -/
def w8Arch1 : Archive := ⟨⟨10, 5⟩, [⟨"x.wav", 4, [], none, []⟩], true⟩

def w8Arch2 : Archive := ⟨⟨11, 6⟩, [⟨"y.wav", 4, [], none, []⟩], true⟩

def w8FS : FS := [("dirA/x.zip", w8Arch1), ("dirB/x.zip", w8Arch2)]

def w8pay1 : Payload := ⟨["x.wav"], 1, []⟩

def w8pay2 : Payload := ⟨["y.wav"], 1, []⟩

/-- Cache after storing for `dirA/x.zip`. -/
def w8C1 : CacheState := (cache_metadata w8FS wC0 "dirA/x.zip" w8pay1 0).getD wC0

/-- Cache after then storing for `dirB/x.zip`. -/
def w8C2 : CacheState := (cache_metadata w8FS w8C1 "dirB/x.zip" w8pay2 1).getD wC0

/-- **C8 counterexample**: `dirA/x.zip` and `dirB/x.zip` are distinct archive
paths, yet storing for `dirB/x.zip` rewrites the entry file backing
`dirA/x.zip` (both paths map to the same `.cache` file, keyed by base
filename) and flips `get_cached_metadata` for `dirA/x.zip` from its stored
payload to `none`. -/
theorem store_not_keyed_by_full_path_counterexample :
    ("dirA/x.zip" : String) ≠ "dirB/x.zip" ∧
    cache_metadata w8FS wC0 "dirA/x.zip" w8pay1 0 = some w8C1 ∧
    (get_cached_metadata w8FS w8C1 "dirA/x.zip").1 = some w8pay1 ∧
    cache_metadata w8FS w8C1 "dirB/x.zip" w8pay2 1 = some w8C2 ∧
    lookupA w8C2.entry_files (get_cache_file_path "dirA/x.zip") ≠
      lookupA w8C1.entry_files (get_cache_file_path "dirA/x.zip") ∧
    (get_cached_metadata w8FS w8C2 "dirA/x.zip").1 = none := by
  decide

/-- **C8 (amended)**: cache entry files are keyed by the archive's *base
filename* (one `.cache` file per basename in the cache directory), while the
index is keyed by the full path; consequently a `store` for one path leaves
another path's cache entry — its entry file, its index registration, and what
`get_cached_metadata` returns for it — unchanged whenever the two base
filenames differ (two distinct paths sharing a basename share one entry file,
and a store for one overwrites the other's, as the counterexample shows). -/
theorem store_frame_distinct_basenames
    (fs : FS) (c : CacheState) (A B : String) (p : Payload) (now : Nat) (c' : CacheState)
    (hb : basename A ≠ basename B)
    (hst : cache_metadata fs c B p now = some c') :
    lookupA c'.entry_files (get_cache_file_path A) =
      lookupA c.entry_files (get_cache_file_path A) ∧
    lookupA c'.cache_index A = lookupA c.cache_index A ∧
    (get_cached_metadata fs c' A).1 = (get_cached_metadata fs c A).1 := by
  have hAB : A ≠ B := fun he => hb (he ▸ rfl)
  have hpath : get_cache_file_path A ≠ get_cache_file_path B :=
    fun he => hb (get_cache_file_path_inj A B he)
  rcases hfsB : lookupA fs B with _ | archB
  · rw [cache_metadata, hfsB] at hst
    exact absurd hst (by simp)
  · rw [cache_metadata, hfsB] at hst
    have h2 := Option.some.inj hst
    have hef : lookupA c'.entry_files (get_cache_file_path A) =
        lookupA c.entry_files (get_cache_file_path A) := by
      rw [← h2]
      exact lookupA_setAssoc_ne _ _ _ _ hpath
    have hci : lookupA c'.cache_index A = lookupA c.cache_index A := by
      rw [← h2]
      exact lookupA_setAssoc_ne _ _ _ _ hAB
    exact ⟨hef, hci, get_fst_congr fs c' c A hci hef⟩

/-- Two archives with distinct base filenames in one directory. -/
def w8FSb : FS := [("dirA/x.zip", w8Arch1), ("dirA/y.zip", w8Arch2)]

def w8D1 : CacheState := (cache_metadata w8FSb wC0 "dirA/x.zip" w8pay1 0).getD wC0

def w8D2 : CacheState := (cache_metadata w8FSb w8D1 "dirA/y.zip" w8pay2 1).getD wC0

/-- **C8 (amended) witness**: with distinct basenames, storing for
`dirA/y.zip` leaves `dirA/x.zip`'s entry file, index entry, and read result
unchanged. -/
theorem store_frame_distinct_basenames_witness :
    lookupA w8D2.entry_files (get_cache_file_path "dirA/x.zip") =
      lookupA w8D1.entry_files (get_cache_file_path "dirA/x.zip") ∧
    lookupA w8D2.cache_index "dirA/x.zip" = lookupA w8D1.cache_index "dirA/x.zip" ∧
    (get_cached_metadata w8FSb w8D2 "dirA/x.zip").1 =
      (get_cached_metadata w8FSb w8D1 "dirA/x.zip").1 :=
  store_frame_distinct_basenames w8FSb w8D1 "dirA/x.zip" "dirA/y.zip" w8pay2 1 w8D2
    (by decide) (by decide)

end AudioBrowser
